import Mathlib

/-!
# Verification of the `oas3` OpenAPI document library

A shallow embedding, in Lean 4, of the data model and operations of the
`oas3-rs` repository: loading an OpenAPI document from YAML/JSON text
(`from_reader`, `from_path`), serializing it back (`to_yaml`, `to_json`),
the extension-capturing map deserializer (`deserialize_extensions`), the
`Contact` object, and the reference-resolution / schema-validation core
described by the design document (`ObjectOrReference` resolution, the
recursive schema validator with composition keywords and the cycle guard).

Structured data flowing through serde is embedded as the inductive `Val`
(null / bool / integer / string / array / object), with objects as ordered
association lists, matching the insertion-ordered mappings used by the
library (`serde_yaml::Mapping` is index-ordered).
-/

namespace Oas3

/-- JSON/YAML-like structured values as handled by the library
(`serde_yaml::Value` / `serde_json::Value`): null, booleans, integers,
strings, sequences and insertion-ordered mappings with string keys.
Floating-point numbers are outside this embedding. -/
inductive Val : Type where
  | null : Val
  | bool (b : Bool) : Val
  | int (n : Int) : Val
  | str (s : String) : Val
  | arr (elems : List Val) : Val
  | obj (entries : List (String × Val)) : Val
deriving Repr

mutual

/-- Structural (deep) equality test on values. -/
def Val.beq : Val → Val → Bool
  | .null, .null => true
  | .bool a, .bool b => a == b
  | .int a, .int b => a == b
  | .str a, .str b => a == b
  | .arr a, .arr b => Val.beqList a b
  | .obj a, .obj b => Val.beqEntries a b
  | _, _ => false

/-- Elementwise deep equality on value sequences. -/
def Val.beqList : List Val → List Val → Bool
  | [], [] => true
  | x :: xs, y :: ys => Val.beq x y && Val.beqList xs ys
  | _, _ => false

/-- Entrywise deep equality on objects (key and value, in order). -/
def Val.beqEntries : List (String × Val) → List (String × Val) → Bool
  | [], [] => true
  | (k, x) :: xs, (l, y) :: ys => k == l && Val.beq x y && Val.beqEntries xs ys
  | _, _ => false

end

def Val.beqList_iff (xs ys : List Val)
    (ih : ∀ x ∈ xs, ∀ y, Val.beq x y = true ↔ x = y) :
    Val.beqList xs ys = true ↔ xs = ys := by
  induction xs generalizing ys with
  | nil => cases ys <;> simp [Val.beqList]
  | cons x xs ihl =>
    cases ys with
    | nil => simp [Val.beqList]
    | cons y ys =>
      simp only [Val.beqList, Bool.and_eq_true, List.cons.injEq]
      rw [ih x (by simp) y, ihl ys (fun a ha b => ih a (by simp [ha]) b)]

def Val.beqEntries_iff (xs ys : List (String × Val))
    (ih : ∀ p ∈ xs, ∀ y, Val.beq p.2 y = true ↔ p.2 = y) :
    Val.beqEntries xs ys = true ↔ xs = ys := by
  induction xs generalizing ys with
  | nil => cases ys <;> simp [Val.beqEntries]
  | cons x xs ihl =>
    cases ys with
    | nil => simp [Val.beqEntries]
    | cons y ys =>
      obtain ⟨k, v⟩ := x
      obtain ⟨l, w⟩ := y
      simp only [Val.beqEntries, Bool.and_eq_true, List.cons.injEq, Prod.mk.injEq,
        beq_iff_eq]
      rw [ih (k, v) (by simp) w, ihl ys (fun a ha b => ih a (by simp [ha]) b)]

def Val.beq_iff (a b : Val) : Val.beq a b = true ↔ a = b := by
  match a, b with
  | .null, b => cases b <;> simp [Val.beq]
  | .bool x, b => cases b <;> simp [Val.beq]
  | .int x, b => cases b <;> simp [Val.beq]
  | .str x, b => cases b <;> simp [Val.beq]
  | .arr xs, b =>
    cases b <;> simp only [Val.beq, Val.arr.injEq] <;> try simp
    exact Val.beqList_iff xs _ (fun x hx y => Val.beq_iff x y)
  | .obj xs, b =>
    cases b <;> simp only [Val.beq, Val.obj.injEq] <;> try simp
    exact Val.beqEntries_iff xs _ (fun p hp y => Val.beq_iff p.2 y)
termination_by sizeOf a
decreasing_by
  · simp_wf
    have := List.sizeOf_lt_of_mem hx
    omega
  · simp_wf
    have h1 := List.sizeOf_lt_of_mem hp
    obtain ⟨k, v⟩ := p
    simp at h1 ⊢
    omega

instance : DecidableEq Val :=
  fun a b => decidable_of_iff (Val.beq a b = true) (Val.beq_iff a b)

/-- Look up key `k` in an object entry list: first matching entry wins,
like map lookup on the ordered mappings used by the library. -/
def lookupKey (entries : List (String × Val)) (k : String) : Option Val :=
  (entries.find? (fun p => p.1 == k)).map (·.2)

/-! ## The `Contact` object (`src/spec/contact.rs`)

`Contact` has three optional fields; `name` and `email` are plain strings,
`url` is a `url::Url`, so deserializing it re-parses the string and fails
on an invalid URL. All three carry
`#[serde(skip_serializing_if = "Option::is_none")]`, so serialization
emits a key exactly when the field is set. -/

/-- Split a character list at the first `://`. -/
def splitScheme : List Char → Option (List Char × List Char)
  | [] => none
  | ':' :: '/' :: '/' :: rest => some ([], rest)
  | c :: rest => (splitScheme rest).map (fun p => (c :: p.1, p.2))

/-- Simplified model of `url::Url` parsing acceptance (the `url` crate is
an external dependency): a string is accepted when it splits as
`<scheme>://<rest>` with both parts nonempty. The theorems below are
stated conditionally on this predicate, so they do not depend on which
particular strings the real crate accepts. -/
def isValidUrl (s : String) : Bool :=
  match splitScheme s.toList with
  | some (scheme, rest) => !scheme.isEmpty && !rest.isEmpty
  | none => false

/-- A parsed URL: a string accepted by the URL parser. -/
def Url := { s : String // isValidUrl s = true }

instance : DecidableEq Url := fun a b =>
  decidable_of_iff (a.val = b.val) Subtype.val_inj

/-- `url::Url` deserialization of a string: succeed exactly on valid URLs. -/
def urlParse (s : String) : Option Url :=
  if h : isValidUrl s = true then some ⟨s, h⟩ else none

/-- The `Contact` struct (`src/spec/contact.rs` lines 8–20). -/
structure Contact where
  name : Option String
  url : Option Url
  email : Option String
deriving DecidableEq

/-- Build object entries from optional fields, omitting the absent ones —
the effect of `#[serde(skip_serializing_if = "Option::is_none")]`. -/
def mkFields (fields : List (String × Option Val)) : List (String × Val) :=
  fields.filterMap (fun p => p.2.map (fun v => (p.1, v)))

/-- Serde serialization of `Contact` to a structured value: the three
fields in declaration order, each omitted when `None`. -/
def Contact.toEntries (c : Contact) : List (String × Val) :=
  mkFields
    [("name", c.name.map Val.str),
     ("url", c.url.map (fun u => Val.str u.val)),
     ("email", c.email.map Val.str)]

/-- Serde serialization of `Contact` (an object value). -/
def Contact.toVal (c : Contact) : Val :=
  .obj c.toEntries

/-- Deserialize an `Option<String>` field (serde: absent or `null` gives
`None`, a string gives `Some`, anything else is a type error). -/
def parseOptString : Option Val → Except String (Option String)
  | none => .ok none
  | some .null => .ok none
  | some (.str s) => .ok (some s)
  | some _ => .error "invalid type: expected a string"

/-- Deserialize an `Option<Url>` field: like `parseOptString`, but the
string must additionally parse as a URL (`url::Url` deserialization). -/
def parseOptUrl : Option Val → Except String (Option Url)
  | none => .ok none
  | some .null => .ok none
  | some (.str s) =>
    match urlParse s with
    | some u => .ok (some u)
    | none => .error "invalid URL"
  | some _ => .error "invalid type: expected a string"

/-- Serde deserialization of `Contact`: the input must be a map; each of
the three fields is optional; unknown keys are ignored (the derive does
not set `deny_unknown_fields`). -/
def Contact.fromVal : Val → Except String Contact
  | .obj entries => do
    let name ← parseOptString (lookupKey entries "name")
    let url ← parseOptUrl (lookupKey entries "url")
    let email ← parseOptString (lookupKey entries "email")
    .ok ⟨name, url, email⟩
  | _ => .error "invalid type: expected a map"

/-! ## Document model, reference cells, resolver and validator

The crates' `Spec`, `ObjectOrReference`, resolver and validator sources
are not part of the two staged files, so this section is modelled from
the design document (spec §3, §4.1, §4.2). -/

/-- Modelled from the spec: the JSON types a Schema may declare
(spec §3, "a set of JSON types (null/boolean/object/array/number/string
… )", plus `integer`, which integral numbers also satisfy per §4.2
step 1). -/
inductive SchemaType : Type where
  | null
  | boolean
  | integer
  | number
  | string
  | array
  | object
deriving DecidableEq, Repr

/-- Modelled from the spec (§3 **Schema**): a recursive Schema node — a
type set, `enum`/`const`, numeric bounds, string length bounds, array
constraints, `items`/`properties`/`required`/`additionalProperties`,
the composition keywords `allOf`/`anyOf`/`oneOf`/`not` — or a `$ref`
pointer (a Reference Cell in schema position). `pattern`, `format` and
`multipleOf` are outside this embedding (`format` is best-effort and
never fails per §4.2 step 4). -/
inductive Schema : Type where
  | ref (ptr : String)
  | node
      (types : List SchemaType)
      (enumVals : Option (List Val))
      (constVal : Option Val)
      (minimum : Option Int)
      (maximum : Option Int)
      (exclusiveMinimum : Option Int)
      (exclusiveMaximum : Option Int)
      (minLength : Option Nat)
      (maxLength : Option Nat)
      (minItems : Option Nat)
      (maxItems : Option Nat)
      (uniqueItems : Bool)
      (items : Option Schema)
      (properties : List (String × Schema))
      (required : List String)
      (additionalProperties : Option (Bool ⊕ Schema))
      (allOf : List Schema)
      (anyOf : List Schema)
      (oneOf : List Schema)
      (notSchema : Option Schema)
deriving Repr

/-- The Schema with no constraint at all: every keyword absent. -/
def Schema.empty : Schema :=
  .node [] none none none none none none none none none none false
    none [] [] none [] [] [] none

/-- A Schema whose only keyword is `oneOf` with the given branches. -/
def Schema.oneOfOnly (branches : List Schema) : Schema :=
  .node [] none none none none none none none none none none false
    none [] [] none [] [] branches none

/-- A Schema whose only keyword is a type set. -/
def Schema.typeOnly (types : List SchemaType) : Schema :=
  .node types none none none none none none none none none none false
    none [] [] none [] [] [] none

/-- A Schema whose only keywords are `allOf` branches. -/
def Schema.allOfOnly (branches : List Schema) : Schema :=
  .node [] none none none none none none none none none none false
    none [] [] none branches [] [] none

/-- Modelled from the spec (§3 **Contact**-bearing Info): title, version
and the optional contact object. -/
structure Info where
  title : String
  version : String
  contact : Option Contact
deriving DecidableEq

/-- Modelled from the spec (§3 **Document** owns a mapping from path
strings to PathItem; the spec fixes no PathItem fields, so optional
summary/description stand for its optional content). -/
structure PathItem where
  summary : Option String
  description : Option String
deriving DecidableEq

/-- Modelled from the spec (§3 **Components**): the named mappings that
internal references target; this embedding carries the `schemas`
mapping, the kind the validator resolves through. -/
structure Components where
  schemas : List (String × Schema)

/-- Modelled from the spec (§3 **Document**): the root entity — Info, an
insertion-ordered mapping from path strings to PathItems, and an
optional Components section (plus the `openapi` version string of the
wire format). -/
structure Document where
  openapi : String
  info : Info
  paths : Option (List (String × PathItem))
  components : Option Components

/-- Modelled from the spec (§3, §9): the Reference Cell sum type —
"exactly one of: an inline value of T, or a Reference holding a pointer
string" (`ObjectOrReference<T>`). -/
inductive ObjectOrReference (α : Type) : Type where
  | object (inner : α)
  | ref (refPath : String)

/-- Modelled from the spec (§4.1, §7): resolution errors. -/
inductive ResolutionError : Type where
  | malformedPointer (ptr : String)
  | unknownReference (kind : String) (name : String)
deriving DecidableEq, Repr

/-- Split a character list on a separator character (the pieces between
separators, like `String.splitOn` for one-character separators). -/
def splitChars (sep : Char) : List Char → List (List Char)
  | [] => [[]]
  | c :: rest =>
    match splitChars sep rest with
    | [] => [[]]
    | cur :: parts =>
      if c = sep then [] :: cur :: parts else (c :: cur) :: parts

/-- Modelled from the spec (§3 **Reference Cell**): decompose a pointer
string of the form `#/components/<kind>/<name>`; any other shape is
malformed. -/
def parsePointer (ptr : String) : Option (String × String) :=
  match (splitChars '/' ptr.toList).map String.mk with
  | ["#", "components", kind, name] => some (kind, name)
  | _ => none

/-- Modelled from the spec (§4.1): resolve one hop of a Reference Cell
against the owning Document. `mapping` selects, from the Document, the
name→α mapping a pointer kind addresses (`none` when the Document has no
such mapping for values of this type). An Inline cell returns its value
directly; a Reference parses the pointer (`MalformedPointer` on shape
mismatch) and looks the name up (`UnknownReference` when absent). -/
def resolve {α : Type} (mapping : Document → String → Option (List (String × α)))
    (cell : ObjectOrReference α) (doc : Document) : Except ResolutionError α :=
  match cell with
  | .object v => .ok v
  | .ref ptr =>
    match parsePointer ptr with
    | none => .error (.malformedPointer ptr)
    | some (kind, name) =>
      match mapping doc kind with
      | none => .error (.unknownReference kind name)
      | some m =>
        match m.find? (fun p => p.1 == name) with
        | some p => .ok p.2
        | none => .error (.unknownReference kind name)

/-- The mapping the `schemas` kind addresses. -/
def schemasMapping (doc : Document) (kind : String) :
    Option (List (String × Schema)) :=
  if kind == "schemas" then doc.components.map Components.schemas else none

/-- Resolve a schema-position Reference Cell (kind `schemas`). -/
def resolveSchema (cell : ObjectOrReference Schema) (doc : Document) :
    Except ResolutionError Schema :=
  resolve schemasMapping cell doc

/-- Look up a named schema in the Document's Components. -/
def lookupSchema (doc : Document) (name : String) : Option Schema :=
  match doc.components with
  | none => none
  | some c => (c.schemas.find? (fun p => p.1 == name)).map (·.2)

/-- Modelled from the spec (§4.2): reason codes of validation
violations. -/
inductive ViolationKind : Type where
  | typeMismatch (expected : List SchemaType) (actual : SchemaType)
  | notInEnum
  | belowMinimum
  | aboveMaximum
  | stringTooShort
  | stringTooLong
  | arrayTooShort
  | arrayTooLong
  | duplicateItems
  | missingRequiredProperty (name : String)
  | unexpectedProperty (name : String)
  | noMatchingBranch
  | multipleMatchingBranches
  | disallowedByNot
  | unresolvableSchema (ptr : String)
  | cyclicSchema (ptr : String)
deriving DecidableEq, Repr

/-- Modelled from the spec (§4.2): a violation record — a
JSON-Pointer-style path into the value (as segments) and a reason
code. -/
structure Violation where
  path : List String
  kind : ViolationKind
deriving DecidableEq, Repr

/-- The runtime kind of a value (spec §4.2 step 1). -/
def Val.kind : Val → SchemaType
  | .null => .null
  | .bool _ => .boolean
  | .int _ => .integer
  | .str _ => .string
  | .arr _ => .array
  | .obj _ => .object

/-- Does a value satisfy one declared type? Integral numbers satisfy
both `integer` and `number` (spec §4.2 step 1). -/
def typeMatches (t : SchemaType) (v : Val) : Bool :=
  match t, v with
  | .null, .null => true
  | .boolean, .bool _ => true
  | .integer, .int _ => true
  | .number, .int _ => true
  | .string, .str _ => true
  | .array, .arr _ => true
  | .object, .obj _ => true
  | _, _ => false

/-- Does the list contain two deep-equal elements (`uniqueItems`,
spec §4.2 step 5)? -/
def hasDup : List Val → Bool
  | [] => false
  | x :: xs => xs.contains x || hasDup xs

/-- The names of the Document's component schemas. -/
def schemaNames (doc : Document) : List String :=
  match doc.components with
  | none => []
  | some c => c.schemas.map Prod.fst

/-- How many component schemas are not yet on the visited path: the
validator's termination measure (spec §5: the cycle detector bounds
recursion by the number of distinct reachable pointers). -/
def freshCount (doc : Document) (visited : List String) : Nat :=
  ((schemaNames doc).filter (fun n => !visited.contains n)).length

def filterMono_le {α : Type} (l : List α) (p q : α → Bool)
    (hmono : ∀ x, q x = true → p x = true) :
    (l.filter q).length ≤ (l.filter p).length := by
  induction l with
  | nil => simp
  | cons x l ih =>
    cases hqx : q x
    · cases hpx : p x <;> simp only [List.filter_cons, hqx, hpx] <;>
        simp <;> omega
    · have hpx : p x = true := hmono x hqx
      simp only [List.filter_cons, hqx, hpx]
      simp
      omega

def filterMono_lt {α : Type} (l : List α) (p q : α → Bool)
    (hmono : ∀ x, q x = true → p x = true)
    (a : α) (ha : a ∈ l) (hpa : p a = true) (hqa : q a = false) :
    (l.filter q).length < (l.filter p).length := by
  induction l with
  | nil => cases ha
  | cons x l ih =>
    have hle := filterMono_le l p q hmono
    rcases List.mem_cons.mp ha with rfl | hx
    · simp only [List.filter_cons, hqa, hpa]
      simp
      omega
    · have hlt := ih hx
      cases hqx : q x
      · cases hpx : p x <;> simp only [List.filter_cons, hqx, hpx] <;>
          simp <;> omega
      · have hpx : p x = true := hmono x hqx
        simp only [List.filter_cons, hqx, hpx]
        simp
        omega

def filterFresh_lt (l path : List String) (a : String) (hmem : a ∈ l)
    (hfresh : path.contains a = false) :
    (l.filter (fun n => !(a :: path).contains n)).length <
      (l.filter (fun n => !path.contains n)).length := by
  refine filterMono_lt l _ _ ?_ a hmem ?_ ?_
  · intro x hx
    simp only [List.contains_cons, Bool.not_or, Bool.and_eq_true] at hx
    exact hx.2
  · simpa using hfresh
  · simp [List.contains_cons]

def resolveSchema_ok_facts (doc : Document) (ptr kind name : String) (s' : Schema)
    (hparse : parsePointer ptr = some (kind, name))
    (hres : resolveSchema (.ref ptr) doc = .ok s') :
    name ∈ schemaNames doc := by
  simp only [resolveSchema, resolve, hparse] at hres
  match hm : schemasMapping doc kind with
  | none => simp [hm] at hres
  | some m =>
    simp only [hm] at hres
    match hf : m.find? (fun p => p.1 == name) with
    | none => simp [hf] at hres
    | some p =>
      have hkey := List.find?_some hf
      simp only [beq_iff_eq] at hkey
      have hmemm : p ∈ m := List.mem_of_find?_eq_some hf
      unfold schemasMapping at hm
      by_cases hk : kind = "schemas"
      · rw [if_pos (by simp [hk])] at hm
        match hc : doc.components with
        | none => rw [hc] at hm; exact Option.noConfusion hm
        | some c =>
          rw [hc] at hm
          have hcm : c.schemas = m := by
            simpa using hm
          have : name ∈ c.schemas.map Prod.fst := by
            rw [← hkey]
            exact List.mem_map_of_mem Prod.fst (hcm ▸ hmemm)
          simp only [schemaNames, hc]
          exact this
      · rw [if_neg (by simp [hk])] at hm
        exact Option.noConfusion hm

def freshCount_lt (doc : Document) (visited : List String) (ptr kind name : String)
    (s' : Schema) (hparse : parsePointer ptr = some (kind, name))
    (hres : resolveSchema (.ref ptr) doc = .ok s')
    (hfresh : visited.contains name = false) :
    freshCount doc (name :: visited) < freshCount doc visited :=
  filterFresh_lt (schemaNames doc) visited name
    (resolveSchema_ok_facts doc ptr kind name s' hparse hres) hfresh

mutual

/-- Modelled from the spec (§4.2): the recursive validator. All
applicable checks run and all violations are collected (no
short-circuit). `visited` is the cycle guard: the component-schema
names resolved along the current recursive path, keyed by the pointer's
parsed `(kind, name)` (one name per pointer string). A `$ref` whose
name is already on the path halts that branch with `CyclicSchema`; a
reference that does not resolve yields `UnresolvableSchema` (spec §4.2
step 8); otherwise validation recurses through the resolved schema with
the name pushed onto the path. -/
def validate (doc : Document) (visited : List String) (v : Val) :
    Schema → List Violation
  | .ref ptr =>
    match hparse : parsePointer ptr with
    | none => [⟨[], .unresolvableSchema ptr⟩]
    | some (kind, name) =>
      if hcyc : visited.contains name then [⟨[], .cyclicSchema ptr⟩]
      else
        match hres : resolveSchema (.ref ptr) doc with
        | .error _ => [⟨[], .unresolvableSchema ptr⟩]
        | .ok s' => validate doc (name :: visited) v s'
  | .node types enumVals constVal minimum maximum exclusiveMinimum exclusiveMaximum
      minLength maxLength minItems maxItems uniqueItems items properties required
      additionalProperties allOf anyOf oneOf notSchema =>
    (if types.isEmpty then []
     else if types.any (fun t => typeMatches t v) then []
     else [⟨[], .typeMismatch types v.kind⟩]) ++
    (match enumVals with
     | none => []
     | some vs => if vs.contains v then [] else [⟨[], .notInEnum⟩]) ++
    (match constVal with
     | none => []
     | some c => if v = c then [] else [⟨[], .notInEnum⟩]) ++
    (match v with
     | .int n =>
       (match minimum with
        | none => []
        | some m => if n < m then [⟨[], .belowMinimum⟩] else []) ++
       (match exclusiveMinimum with
        | none => []
        | some m => if n ≤ m then [⟨[], .belowMinimum⟩] else []) ++
       (match maximum with
        | none => []
        | some m => if m < n then [⟨[], .aboveMaximum⟩] else []) ++
       (match exclusiveMaximum with
        | none => []
        | some m => if m ≤ n then [⟨[], .aboveMaximum⟩] else [])
     | _ => []) ++
    (match v with
     | .str s =>
       (match minLength with
        | none => []
        | some m => if s.length < m then [⟨[], .stringTooShort⟩] else []) ++
       (match maxLength with
        | none => []
        | some m => if m < s.length then [⟨[], .stringTooLong⟩] else [])
     | _ => []) ++
    (match v with
     | .arr elems =>
       (match minItems with
        | none => []
        | some m => if elems.length < m then [⟨[], .arrayTooShort⟩] else []) ++
       (match maxItems with
        | none => []
        | some m => if m < elems.length then [⟨[], .arrayTooLong⟩] else []) ++
       (if uniqueItems && hasDup elems then [⟨[], .duplicateItems⟩] else []) ++
       (match items with
        | none => []
        | some isch => validateItems doc visited isch elems 0)
     | _ => []) ++
    (match v with
     | .obj entries =>
       (required.filter (fun r => !(entries.any (fun e => e.1 == r)))).map
         (fun r => ⟨[], .missingRequiredProperty r⟩) ++
       validateProps doc visited properties additionalProperties entries
     | _ => []) ++
    (validateBranches doc visited v allOf).flatten ++
    (if anyOf.isEmpty then []
     else
       let results := validateBranches doc visited v anyOf
       if results.any List.isEmpty then [] else results.filterMap List.head?) ++
    (if oneOf.isEmpty then []
     else
       let results := validateBranches doc visited v oneOf
       let passing := (results.filter List.isEmpty).length
       if passing = 1 then []
       else if passing = 0 then [⟨[], .noMatchingBranch⟩]
       else [⟨[], .multipleMatchingBranches⟩]) ++
    (match notSchema with
     | none => []
     | some nsch =>
       if (validate doc visited v nsch).isEmpty then [⟨[], .disallowedByNot⟩]
       else [])
termination_by s => (freshCount doc visited, sizeOf s, sizeOf v)
decreasing_by
  · exact Prod.Lex.left _ _
      (freshCount_lt doc visited _ kind name s' hparse hres (by simpa using hcyc))
  all_goals apply Prod.Lex.right
  all_goals apply Prod.Lex.left
  all_goals simp <;> omega

/-- Validate a value against every branch of a composition keyword,
collecting each branch's violation list (spec §4.2 step 7). -/
def validateBranches (doc : Document) (visited : List String) (v : Val) :
    List Schema → List (List Violation)
  | [] => []
  | b :: bs => validate doc visited v b :: validateBranches doc visited v bs
termination_by bs => (freshCount doc visited, sizeOf bs, sizeOf v)
decreasing_by
  all_goals apply Prod.Lex.right
  all_goals apply Prod.Lex.left
  all_goals simp <;> omega

/-- Validate every array element against the `items` schema, appending
the element index to nested violation paths (spec §4.2 step 5). -/
def validateItems (doc : Document) (visited : List String) (isch : Schema) :
    List Val → Nat → List Violation
  | [], _ => []
  | e :: es, idx =>
    (validate doc visited e isch).map
      (fun w => { w with path := toString idx :: w.path }) ++
    validateItems doc visited isch es (idx + 1)
termination_by elems _ => (freshCount doc visited, sizeOf isch, sizeOf elems)
decreasing_by
  all_goals apply Prod.Lex.right
  all_goals apply Prod.Lex.right
  all_goals simp <;> omega

/-- Validate each present object entry: against its declared property's
schema when one matches, else per the `additionalProperties` policy
(absent or `true`: unconstrained; `false`: `UnexpectedProperty`; a
schema: validated like `items`). Property-name segments are appended to
nested paths (spec §4.2 step 6). -/
def validateProps (doc : Document) (visited : List String)
    (properties : List (String × Schema))
    (additionalProperties : Option (Bool ⊕ Schema)) :
    List (String × Val) → List Violation
  | [] => []
  | e :: es =>
    (match hfind : properties.find? (fun q => q.1 == e.1) with
     | some q =>
       (validate doc visited e.2 q.2).map
         (fun w => { w with path := e.1 :: w.path })
     | none =>
       match additionalProperties with
       | none => []
       | some (.inl true) => []
       | some (.inl false) => [⟨[], .unexpectedProperty e.1⟩]
       | some (.inr asch) =>
         (validate doc visited e.2 asch).map
           (fun w => { w with path := e.1 :: w.path })) ++
    validateProps doc visited properties additionalProperties es
termination_by es =>
  (freshCount doc visited, sizeOf properties + sizeOf additionalProperties, sizeOf es)
decreasing_by
  · have hq := List.mem_of_find?_eq_some hfind
    have hqs := List.sizeOf_lt_of_mem hq
    apply Prod.Lex.right
    apply Prod.Lex.left
    obtain ⟨qa, qb⟩ := q
    simp only [Prod.mk.sizeOf_spec] at hqs ⊢
    omega
  · apply Prod.Lex.right
    apply Prod.Lex.left
    simp <;> omega
  · apply Prod.Lex.right
    apply Prod.Lex.right
    simp <;> omega

end

/-- A Document with no paths and no components. -/
def plainSampleDoc : Document :=
  ⟨"3.1.0", ⟨"t", "v", none⟩, none, none⟩

/-- A Document whose component schemas form a two-step `$ref` loop
(`a` points to `b`, `b` back to `a`). -/
def cyclicSampleDoc : Document :=
  ⟨"3.1.0", ⟨"cyclic", "1", none⟩, none,
   some ⟨[("a", .ref "#/components/schemas/b"),
          ("b", .ref "#/components/schemas/a")]⟩⟩

/-! ## Serialization of the Document model (spec §6)

`to_yaml` / `to_json` (`src/lib.rs` lines 56–64) serialize a `Spec`
through serde's data model; both emit the same structured value
(`serde_yaml::to_string` renders it as YAML, `serde_json::to_string_pretty`
as JSON text). The value-level serialization shared by the two is
embedded below; optional fields that are `None` are omitted
("omit if absent", spec §6). -/

/-- The wire name of a schema type. -/
def SchemaType.toName : SchemaType → String
  | .null => "null"
  | .boolean => "boolean"
  | .integer => "integer"
  | .number => "number"
  | .string => "string"
  | .array => "array"
  | .object => "object"

/-- Parse a schema type wire name. -/
def SchemaType.ofName : String → Option SchemaType
  | "null" => some .null
  | "boolean" => some .boolean
  | "integer" => some .integer
  | "number" => some .number
  | "string" => some .string
  | "array" => some .array
  | "object" => some .object
  | _ => none

/-- Serialize a type set: absent when empty, the bare name for a single
type, a list of names for several (OpenAPI 3.1 type sets). -/
def typesToVal (types : List SchemaType) : Option Val :=
  match types with
  | [] => none
  | [t] => some (.str t.toName)
  | ts => some (.arr (ts.map (fun t => .str t.toName)))

set_option maxHeartbeats 3000000 in
mutual

/-- Serialize a Schema: a `$ref` node emits the single `$ref` key; a
concrete node emits each present keyword ("omit if absent": empty type
set, empty keyword lists, absent options and a false `uniqueItems`
produce no key). -/
def schemaToVal : Schema → Val
  | .ref ptr => .obj [("$ref", .str ptr)]
  | .node types enumVals constVal minimum maximum exclusiveMinimum exclusiveMaximum
      minLength maxLength minItems maxItems uniqueItems items properties required
      additionalProperties allOf anyOf oneOf notSchema =>
    .obj (mkFields
      [("type", typesToVal types),
       ("enum", enumVals.map (fun vs => .arr vs)),
       ("const", constVal),
       ("minimum", minimum.map (fun n => .int n)),
       ("maximum", maximum.map (fun n => .int n)),
       ("exclusiveMinimum", exclusiveMinimum.map (fun n => .int n)),
       ("exclusiveMaximum", exclusiveMaximum.map (fun n => .int n)),
       ("minLength", minLength.map (fun n => .int (Int.ofNat n))),
       ("maxLength", maxLength.map (fun n => .int (Int.ofNat n))),
       ("minItems", minItems.map (fun n => .int (Int.ofNat n))),
       ("maxItems", maxItems.map (fun n => .int (Int.ofNat n))),
       ("uniqueItems", if uniqueItems then some (.bool true) else none),
       ("items", optSchemaToVal items),
       ("properties",
        if properties.isEmpty then none
        else some (.obj (schemaPropsToVal properties))),
       ("required",
        if required.isEmpty then none
        else some (.arr (required.map Val.str))),
       ("additionalProperties", addPropsToVal additionalProperties),
       ("allOf",
        if allOf.isEmpty then none else some (.arr (schemaListToVal allOf))),
       ("anyOf",
        if anyOf.isEmpty then none else some (.arr (schemaListToVal anyOf))),
       ("oneOf",
        if oneOf.isEmpty then none else some (.arr (schemaListToVal oneOf))),
       ("not", optSchemaToVal notSchema)])
termination_by s => sizeOf s
decreasing_by all_goals simp <;> omega

/-- Serialize an optional sub-schema. -/
def optSchemaToVal : Option Schema → Option Val
  | none => none
  | some s => some (schemaToVal s)
termination_by o => sizeOf o
decreasing_by all_goals simp <;> omega

/-- Serialize the `additionalProperties` keyword: absent, a boolean, or
a sub-schema. -/
def addPropsToVal : Option (Bool ⊕ Schema) → Option Val
  | none => none
  | some (.inl b) => some (.bool b)
  | some (.inr s) => some (schemaToVal s)
termination_by o => sizeOf o
decreasing_by all_goals simp <;> omega

/-- Serialize a list of sub-schemas elementwise. -/
def schemaListToVal : List Schema → List Val
  | [] => []
  | s :: rest => schemaToVal s :: schemaListToVal rest
termination_by l => sizeOf l
decreasing_by all_goals simp <;> omega

/-- Serialize a properties mapping entrywise. -/
def schemaPropsToVal : List (String × Schema) → List (String × Val)
  | [] => []
  | (k, s) :: rest => (k, schemaToVal s) :: schemaPropsToVal rest
termination_by l => sizeOf l
decreasing_by all_goals simp <;> omega

end


/-- Parse the `type` keyword: absent, a single type name, or a list. -/
def typeNamesFromVal : List Val → Except String (List SchemaType)
  | [] => .ok []
  | .str s :: rest =>
    match SchemaType.ofName s with
    | some t => (typeNamesFromVal rest).map (fun ts => t :: ts)
    | none => .error "unknown type name"
  | _ :: _ => .error "invalid type name"

/-- Parse the `type` field. -/
def typesFromVal : Option Val → Except String (List SchemaType)
  | none => .ok []
  | some (.str s) =>
    match SchemaType.ofName s with
    | some t => .ok [t]
    | none => .error "unknown type name"
  | some (.arr vs) => typeNamesFromVal vs
  | some _ => .error "invalid type field"

/-- Parse an optional integer keyword. -/
def optIntFromVal : Option Val → Except String (Option Int)
  | none => .ok none
  | some (.int n) => .ok (some n)
  | some _ => .error "invalid integer"

/-- Parse an optional non-negative integer keyword. -/
def optNatFromVal : Option Val → Except String (Option Nat)
  | none => .ok none
  | some (.int n) => if n < 0 then .error "negative length" else .ok (some n.toNat)
  | some _ => .error "invalid integer"

/-- Parse the `uniqueItems` flag (absent means false). -/
def boolFlagFromVal : Option Val → Except String Bool
  | none => .ok false
  | some (.bool b) => .ok b
  | some _ => .error "invalid boolean"

/-- Parse the `enum` keyword. -/
def enumFromVal : Option Val → Except String (Option (List Val))
  | none => .ok none
  | some (.arr vs) => .ok (some vs)
  | some _ => .error "invalid enum"

/-- Parse a list of strings. -/
def strListFromVal : List Val → Except String (List String)
  | [] => .ok []
  | .str s :: rest => (strListFromVal rest).map (fun ss => s :: ss)
  | _ :: _ => .error "invalid string list"

/-- Parse the `required` keyword. -/
def requiredFromVal : Option Val → Except String (List String)
  | none => .ok []
  | some (.arr vs) => strListFromVal vs
  | some _ => .error "invalid required"

def sizeOf_lookupKey_some {entries : List (String × Val)} {k : String} {v : Val}
    (h : lookupKey entries k = some v) : sizeOf v < sizeOf entries := by
  unfold lookupKey at h
  match hf : entries.find? (fun p => p.1 == k) with
  | none => rw [hf] at h; exact Option.noConfusion h
  | some p =>
    rw [hf] at h
    obtain ⟨a, b⟩ := p
    have h2 : b = v := by simpa using h
    subst h2
    have hmem := List.sizeOf_lt_of_mem (List.mem_of_find?_eq_some hf)
    simp only [Prod.mk.sizeOf_spec] at hmem
    omega

def sizeOf_lookupKey_lt (entries : List (String × Val)) (k : String) :
    sizeOf (lookupKey entries k) < sizeOf (Val.obj entries) := by
  cases hv : lookupKey entries k with
  | none =>
    cases entries <;> simp <;> omega
  | some v =>
    have := sizeOf_lookupKey_some hv
    simp
    omega

set_option maxHeartbeats 3000000 in
mutual

/-- Parse a Schema from its structured value: an object with a string
`$ref` key is a reference node; otherwise each keyword is read from its
key (absent keys give the empty/absent keyword). Any key of the wrong
shape is a structural-parse error. -/
def schemaFromVal : Val → Except String Schema
  | .obj entries =>
    match lookupKey entries "$ref" with
    | some (.str ptr) => .ok (.ref ptr)
    | some _ => .error "invalid $ref"
    | none => do
      let types ← typesFromVal (lookupKey entries "type")
      let enumVals ← enumFromVal (lookupKey entries "enum")
      let constVal := lookupKey entries "const"
      let minimum ← optIntFromVal (lookupKey entries "minimum")
      let maximum ← optIntFromVal (lookupKey entries "maximum")
      let exclusiveMinimum ← optIntFromVal (lookupKey entries "exclusiveMinimum")
      let exclusiveMaximum ← optIntFromVal (lookupKey entries "exclusiveMaximum")
      let minLength ← optNatFromVal (lookupKey entries "minLength")
      let maxLength ← optNatFromVal (lookupKey entries "maxLength")
      let minItems ← optNatFromVal (lookupKey entries "minItems")
      let maxItems ← optNatFromVal (lookupKey entries "maxItems")
      let uniqueItems ← boolFlagFromVal (lookupKey entries "uniqueItems")
      let items ← optSubschemaFromVal (lookupKey entries "items")
      let properties ← propsFieldFromVal (lookupKey entries "properties")
      let required ← requiredFromVal (lookupKey entries "required")
      let additionalProperties ← addPropsFromVal
        (lookupKey entries "additionalProperties")
      let allOf ← schemaListFieldFromVal (lookupKey entries "allOf")
      let anyOf ← schemaListFieldFromVal (lookupKey entries "anyOf")
      let oneOf ← schemaListFieldFromVal (lookupKey entries "oneOf")
      let notSchema ← optSubschemaFromVal (lookupKey entries "not")
      .ok (.node types enumVals constVal minimum maximum exclusiveMinimum
        exclusiveMaximum minLength maxLength minItems maxItems uniqueItems items
        properties required additionalProperties allOf anyOf oneOf notSchema)
  | _ => .error "invalid type: expected a map"
termination_by v => sizeOf v
decreasing_by
  all_goals first
    | apply sizeOf_lookupKey_lt
    | (simp <;> omega)

/-- Parse an optional sub-schema keyword (`items`, `not`). -/
def optSubschemaFromVal : Option Val → Except String (Option Schema)
  | none => .ok none
  | some v => (schemaFromVal v).map some
termination_by o => sizeOf o
decreasing_by all_goals simp <;> omega

/-- Parse the `properties` keyword. -/
def propsFieldFromVal : Option Val → Except String (List (String × Schema))
  | none => .ok []
  | some (.obj pes) => schemaPropsFromVal pes
  | some _ => .error "invalid properties"
termination_by o => sizeOf o
decreasing_by all_goals simp <;> omega

/-- Parse the `additionalProperties` keyword: absent, a boolean, or a
sub-schema. -/
def addPropsFromVal : Option Val → Except String (Option (Bool ⊕ Schema))
  | none => .ok none
  | some (.bool b) => .ok (some (.inl b))
  | some v => (schemaFromVal v).map (fun s => some (.inr s))
termination_by o => sizeOf o
decreasing_by all_goals simp <;> omega

/-- Parse a schema-list keyword (`allOf`, `anyOf`, `oneOf`). -/
def schemaListFieldFromVal : Option Val → Except String (List Schema)
  | none => .ok []
  | some (.arr vs) => schemaListFromVal vs
  | some _ => .error "invalid schema list"
termination_by o => sizeOf o
decreasing_by all_goals simp <;> omega

/-- Parse a list of sub-schemas. -/
def schemaListFromVal : List Val → Except String (List Schema)
  | [] => .ok []
  | v :: rest => do
    let s ← schemaFromVal v
    let others ← schemaListFromVal rest
    .ok (s :: others)
termination_by l => sizeOf l
decreasing_by all_goals simp <;> omega

/-- Parse a properties mapping. -/
def schemaPropsFromVal : List (String × Val) → Except String (List (String × Schema))
  | [] => .ok []
  | (k, v) :: rest => do
    let s ← schemaFromVal v
    let others ← schemaPropsFromVal rest
    .ok ((k, s) :: others)
termination_by l => sizeOf l
decreasing_by all_goals simp <;> omega

end

/-- Serialize Info (title and version always present, contact omitted
when absent). -/
def Info.toVal (i : Info) : Val :=
  .obj (mkFields
    [("title", some (.str i.title)),
     ("version", some (.str i.version)),
     ("contact", i.contact.map Contact.toVal)])

/-- Parse Info: `title` and `version` are required strings, `contact`
optional. -/
def Info.fromVal : Val → Except String Info
  | .obj entries => do
    let title ← (match lookupKey entries "title" with
      | some (.str s) => .ok s
      | some _ => .error "invalid title"
      | none => .error "missing field title")
    let version ← (match lookupKey entries "version" with
      | some (.str s) => .ok s
      | some _ => .error "invalid version"
      | none => .error "missing field version")
    let contact ← (match lookupKey entries "contact" with
      | none => .ok none
      | some .null => .ok none
      | some v => (Contact.fromVal v).map some)
    .ok ⟨title, version, contact⟩
  | _ => .error "invalid type: expected a map"

/-- Serialize a PathItem (both fields optional). -/
def PathItem.toVal (p : PathItem) : Val :=
  .obj (mkFields
    [("summary", p.summary.map Val.str),
     ("description", p.description.map Val.str)])

/-- Parse a PathItem. -/
def PathItem.fromVal : Val → Except String PathItem
  | .obj entries => do
    let summary ← parseOptString (lookupKey entries "summary")
    let description ← parseOptString (lookupKey entries "description")
    .ok ⟨summary, description⟩
  | _ => .error "invalid type: expected a map"

/-- Serialize the paths mapping in document order. -/
def pathsToVal (ps : List (String × PathItem)) : Val :=
  .obj (ps.map (fun p => (p.1, p.2.toVal)))

/-- Parse the entries of the paths mapping. -/
def pathEntriesFromVal : List (String × Val) → Except String (List (String × PathItem))
  | [] => .ok []
  | (k, v) :: rest => do
    let item ← PathItem.fromVal v
    let others ← pathEntriesFromVal rest
    .ok ((k, item) :: others)

/-- Parse the paths mapping. -/
def pathsFromVal : Val → Except String (List (String × PathItem))
  | .obj entries => pathEntriesFromVal entries
  | _ => .error "invalid paths"

/-- Serialize Components (the schemas mapping, omitted when empty). -/
def Components.toVal (c : Components) : Val :=
  .obj (mkFields
    [("schemas",
      if c.schemas.isEmpty then none
      else some (.obj (schemaPropsToVal c.schemas)))])

/-- Parse Components. -/
def Components.fromVal : Val → Except String Components
  | .obj entries => do
    let schemas ← (match lookupKey entries "schemas" with
      | none => .ok []
      | some (.obj ses) => schemaPropsFromVal ses
      | some _ => .error "invalid schemas")
    .ok ⟨schemas⟩
  | _ => .error "invalid components"

/-- Serialize a Document: `openapi` and `info` always present, `paths`
and `components` omitted when absent. -/
def Document.toVal (d : Document) : Val :=
  .obj (mkFields
    [("openapi", some (.str d.openapi)),
     ("info", some d.info.toVal),
     ("paths", d.paths.map pathsToVal),
     ("components", d.components.map Components.toVal)])

/-- Parse a Document from its structured value: `openapi` and `info`
required, `paths` and `components` optional. -/
def Document.fromVal : Val → Except String Document
  | .obj entries => do
    let openapi ← (match lookupKey entries "openapi" with
      | some (.str s) => .ok s
      | some _ => .error "invalid openapi"
      | none => .error "missing field openapi")
    let info ← (match lookupKey entries "info" with
      | some v => Info.fromVal v
      | none => .error "missing field info")
    let paths ← (match lookupKey entries "paths" with
      | none => .ok none
      | some .null => .ok none
      | some v => (pathsFromVal v).map some)
    let components ← (match lookupKey entries "components" with
      | none => .ok none
      | some .null => .ok none
      | some v => (Components.fromVal v).map some)
    .ok ⟨openapi, info, paths, components⟩
  | _ => .error "invalid type: expected a map"

/-! ## Text layer: JSON printing and YAML/JSON text parsing

`from_reader` hands the byte stream to `serde_yaml`, which parses both
YAML and JSON syntax (JSON is a subset of YAML's flow style), yielding a
structured value that the declarative struct mapping consumes;
`to_json` pretty-prints the serialized value as JSON text. The embedding
below carries an executable model of this text layer: a JSON printer and
a parser covering JSON plus the block-mapping/flow subset of YAML used
by OpenAPI documents (plain scalars, double-quoted strings, integers,
flow sequences/mappings and indented block mappings; floats, anchors,
multi-document streams and block sequences are outside the model). -/

/-- Escape a character for a JSON string literal (quote, backslash,
newline). -/
def escapeChar (c : Char) : String :=
  if c = '"' then "\\\""
  else if c = '\\' then "\\\\"
  else if c = '\n' then "\\n"
  else String.singleton c

/-- Escape a string for a JSON string literal. -/
def escapeString (s : String) : String :=
  String.join (s.toList.map escapeChar)

mutual

/-- Print a value as (compact) JSON text. -/
def printJson : Val → String
  | .null => "null"
  | .bool b => if b then "true" else "false"
  | .int n => toString n
  | .str s => "\"" ++ escapeString s ++ "\""
  | .arr es => "[" ++ printJsonList es ++ "]"
  | .obj entries => "\x7b" ++ printJsonEntries entries ++ "\x7d"

/-- Print array elements, comma-separated. -/
def printJsonList : List Val → String
  | [] => ""
  | [v] => printJson v
  | v :: rest => printJson v ++ "," ++ printJsonList rest

/-- Print object entries, comma-separated. -/
def printJsonEntries : List (String × Val) → String
  | [] => ""
  | [(k, v)] => "\"" ++ escapeString k ++ "\":" ++ printJson v
  | (k, v) :: rest =>
    "\"" ++ escapeString k ++ "\":" ++ printJson v ++ "," ++ printJsonEntries rest

end

/-- Whitespace characters skipped between flow tokens. -/
def isWsChar (c : Char) : Bool :=
  c = ' ' || c = '\n' || c = '\t' || c = '\r'

/-- Skip leading whitespace. -/
def skipWs : List Char → List Char
  | [] => []
  | c :: rest => if isWsChar c then skipWs rest else c :: rest

/-- Trim leading and trailing whitespace from a character list. -/
def trimChars (cs : List Char) : List Char :=
  ((cs.dropWhile isWsChar).reverse.dropWhile isWsChar).reverse

/-- Parse a nonempty all-digit character list as a natural number. -/
def parseNatChars (cs : List Char) : Option Nat :=
  match cs with
  | [] => none
  | ds =>
    if ds.all Char.isDigit then
      some (ds.foldl (fun acc c => acc * 10 + (c.toNat - 48)) 0)
    else none

/-- Parse an optionally signed integer literal. -/
def parseIntChars : List Char → Option Int
  | '-' :: ds => (parseNatChars ds).map (fun n => -(n : Int))
  | ds => (parseNatChars ds).map (fun n => (n : Int))

/-- A plain (unquoted) scalar: null, boolean, integer, or string. -/
def scalarOfPlain (s : String) : Val :=
  if s = "null" || s = "~" then .null
  else if s = "true" then .bool true
  else if s = "false" then .bool false
  else
    match parseIntChars s.toList with
    | some n => .int n
    | none => .str s

/-- Parse a double-quoted string body (after the opening quote), with
the minimal escapes the printer emits. -/
def parseQuoted : List Char → List Char → Option (String × List Char)
  | [], _ => none
  | '\\' :: c :: rest, acc =>
    parseQuoted rest (acc ++ [if c = 'n' then '\n' else c])
  | '"' :: rest, acc => some (String.mk acc, rest)
  | c :: rest, acc => parseQuoted rest (acc ++ [c])

/-- Is this character a flow-context delimiter? -/
def isFlowDelim (c : Char) : Bool :=
  c = ',' || c = '}' || c = ']' || c = ':' || c = '\n'

/-- Parse a mapping key: quoted or plain (up to the colon). -/
def parseKey : List Char → Option (String × List Char)
  | '"' :: rest => parseQuoted rest []
  | cs =>
    let tok := cs.takeWhile (fun c => !isFlowDelim c)
    if tok.isEmpty then none
    else some (String.mk (trimChars tok), cs.drop tok.length)

mutual

/-- Parse one flow value (JSON value or YAML flow value): mapping,
sequence, quoted string, or plain scalar. `fuel` bounds the recursion
depth. -/
def parseFlow : Nat → List Char → Option (Val × List Char)
  | 0, _ => none
  | fuel + 1, cs =>
    match skipWs cs with
    | [] => none
    | '{' :: rest =>
      (match skipWs rest with
       | '}' :: r2 => some (.obj [], r2)
       | cs2 => parseFlowObj fuel cs2 [])
    | '[' :: rest =>
      (match skipWs rest with
       | ']' :: r2 => some (.arr [], r2)
       | cs2 => parseFlowArr fuel cs2 [])
    | '"' :: rest =>
      (parseQuoted rest []).map (fun p => (.str p.1, p.2))
    | cs' =>
      let tok := cs'.takeWhile (fun c => !isFlowDelim c)
      if tok.isEmpty then none
      else some (scalarOfPlain (String.mk (trimChars tok)), cs'.drop tok.length)

/-- Parse the entries of a flow mapping (after `{`). -/
def parseFlowObj : Nat → List Char → List (String × Val) →
    Option (Val × List Char)
  | 0, _, _ => none
  | fuel + 1, cs, acc =>
    match parseKey (skipWs cs) with
    | none => none
    | some (k, r1) =>
      match skipWs r1 with
      | ':' :: r2 =>
        (match parseFlow fuel r2 with
         | none => none
         | some (v, r3) =>
           match skipWs r3 with
           | ',' :: r4 => parseFlowObj fuel r4 (acc ++ [(k, v)])
           | '}' :: r4 => some (.obj (acc ++ [(k, v)]), r4)
           | _ => none)
      | _ => none

/-- Parse the elements of a flow sequence (after `[`). -/
def parseFlowArr : Nat → List Char → List Val → Option (Val × List Char)
  | 0, _, _ => none
  | fuel + 1, cs, acc =>
    match parseFlow fuel cs with
    | none => none
    | some (v, r1) =>
      match skipWs r1 with
      | ',' :: r2 => parseFlowArr fuel r2 (acc ++ [v])
      | ']' :: r2 => some (.arr (acc ++ [v]), r2)
      | _ => none

end

/-- Parse a value written on a block-mapping line: quoted string, flow
collection, or plain scalar. -/
def parseInlineVal (s : String) : Option Val :=
  let cs := skipWs s.toList
  match parseFlow (2 * cs.length + 2) cs with
  | some (v, rest) => if (skipWs rest).isEmpty then some v else none
  | none => none

/-- Split a document into its meaningful lines: (indent, content),
dropping blank and comment lines. -/
def toLines (t : String) : List (Nat × String) :=
  (splitChars '\n' t.toList).filterMap (fun lcs =>
    match lcs.dropWhile (fun c => c = ' ') with
    | [] => none
    | '#' :: _ => none
    | content =>
      some ((lcs.takeWhile (fun c => c = ' ')).length, String.mk content))

/-- Split a block-mapping line `key: value` or `key:` at its first
colon. -/
def splitKeyLine (c : String) : Option (String × String) :=
  match (c.toList.span (fun ch => ch ≠ ':')) with
  | (before, ':' :: after) => some (String.mk (trimChars before), String.mk after)
  | _ => none

/-- Parse an indented block mapping: consume the lines at exactly
`indent`, stopping (and handing back the rest) at a dedent. A line with
no value owns the deeper-indented block that follows (or null when none
does). -/
def parseBlock : Nat → List (Nat × String) → Nat →
    Option (List (String × Val) × List (Nat × String))
  | 0, _, _ => none
  | _ + 1, [], _ => some ([], [])
  | fuel + 1, (i, c) :: rest, indent =>
    if i < indent then some ([], (i, c) :: rest)
    else if indent < i then none
    else
      match splitKeyLine c with
      | none => none
      | some (k, vstr) =>
        if (trimChars vstr.toList).isEmpty then
          match rest with
          | (i2, c2) :: _ =>
            if i < i2 then
              match parseBlock fuel rest i2 with
              | none => none
              | some (children, rem) =>
                match parseBlock fuel rem indent with
                | none => none
                | some (siblings, rem2) =>
                  some ((k, .obj children) :: siblings, rem2)
            else
              match parseBlock fuel ((i2, c2) :: rest) indent with
              | none => none
              | some (siblings, rem2) => some ((k, .null) :: siblings, rem2)
          | [] => some ([(k, .null)], [])
        else
          match parseInlineVal vstr with
          | none => none
          | some v =>
            match parseBlock fuel rest indent with
            | none => none
            | some (siblings, rem2) => some ((k, v) :: siblings, rem2)

/-- Parse YAML or JSON text into a structured value: a document opening
with `{` or `[` is flow syntax (this covers all JSON documents); any
other document is a block mapping. -/
def parseTextVal (t : String) : Option Val :=
  match skipWs t.toList with
  | '{' :: rest =>
    (parseFlow (2 * rest.length + 4) ('{' :: rest)).bind
      (fun p => if (skipWs p.2).isEmpty then some p.1 else none)
  | '[' :: rest =>
    (parseFlow (2 * rest.length + 4) ('[' :: rest)).bind
      (fun p => if (skipWs p.2).isEmpty then some p.1 else none)
  | _ =>
    let lines := toLines t
    match lines with
    | [] => none
    | (i, _) :: _ =>
      (parseBlock (2 * lines.length + 2) lines i).bind
        (fun p => if p.2.isEmpty then some (.obj p.1) else none)

/-- `from_reader` (`src/lib.rs` lines 49–54): hand the text to the YAML
parser (which accepts JSON as well), then run the declarative struct
mapping; any failure of either stage is returned as the error, and a
Document is produced only when both fully succeed. -/
def from_reader (t : String) : Except String Document :=
  match parseTextVal t with
  | none => .error "syntax error"
  | some v => Document.fromVal v

/-- `from_path` (`src/lib.rs` lines 41–46): open the file — an I/O
failure is returned as an error via `?` — and parse its contents with
`from_reader`. The file system is embedded as the optional file
content. -/
def from_path (file : Option String) : Except String Document :=
  match file with
  | none => .error "could not open file"
  | some t => from_reader t

/-- The structured value `to_yaml` (`src/lib.rs` lines 56–59) renders as
YAML text: serialization through serde's data model. -/
def toYamlVal (d : Document) : Val :=
  d.toVal

/-- The structured value `to_json` (`src/lib.rs` lines 61–64)
pretty-prints. -/
def toJsonVal (d : Document) : Val :=
  d.toVal

/-- `to_json` rendered to text by the JSON printer. -/
def toJsonText (d : Document) : String :=
  printJson d.toVal

/-! ## `deserialize_extensions` (`src/lib.rs` lines 66–93)

`ExtraFieldsVisitor::visit_map` drains the map access entry by entry,
inserting each `(key, value)` pair into a fresh `serde_yaml::Mapping`
(an insertion-ordered map backed by an index map: inserting an existing
key overwrites its value in place, keeping its original position;
inserting a new key appends it). The `?` on `next_entry` propagates any
error of the underlying deserializer. The map access is embedded as the
list of results its successive `next_entry` calls produce. -/

/-- One insertion into an insertion-ordered mapping (`Mapping::insert`):
overwrite in place when the key is already present, append otherwise. -/
def mapInsert : List (Val × Val) → Val → Val → List (Val × Val)
  | [], k, v => [(k, v)]
  | p :: rest, k, v =>
    if p.1 == k then (p.1, v) :: rest else p :: mapInsert rest k v

/-- The loop of `ExtraFieldsVisitor::visit_map`: stop with the first
entry error, otherwise insert every entry into the accumulated mapping. -/
def visitMapGo : List (Except String (Val × Val)) → List (Val × Val) →
    Except String (List (Val × Val))
  | [], m => .ok m
  | .error e :: _, _ => .error e
  | .ok (k, v) :: rest, m => visitMapGo rest (mapInsert m k v)

/-- `deserialize_extensions`: visit the input map starting from an empty
`Mapping`. -/
def deserializeExtensions (entries : List (Except String (Val × Val))) :
    Except String (List (Val × Val)) :=
  visitMapGo entries []

/-- Insert a list of entries in order, left to right. -/
def foldInsert (m : List (Val × Val)) (l : List (Val × Val)) : List (Val × Val) :=
  l.foldl (fun acc p => mapInsert acc p.1 p.2) m

/-- Mapping lookup (first entry with the key; mappings built by
`mapInsert` have distinct keys). -/
def mapLookup : List (Val × Val) → Val → Option Val
  | [], _ => none
  | p :: rest, k => if p.1 == k then some p.2 else mapLookup rest k

/-- The value of the *last* entry of `l` whose key is `k`, if any. -/
def lastValue : List (Val × Val) → Val → Option Val
  | [], _ => none
  | p :: rest, k =>
    match lastValue rest k with
    | some v => some v
    | none => if p.1 == k then some p.2 else none

/-- The keys of a mapping, in iteration order. -/
def keysOf (m : List (Val × Val)) : List Val :=
  m.map Prod.fst

/-- Keys in first-occurrence order, duplicates dropped. -/
def firstOccur (ks : List Val) : List Val :=
  ks.foldl (fun acc k => if k ∈ acc then acc else acc ++ [k]) []

/-- Field lookup on an optional-field description: the value of the
first present field with the key. -/
def lookupField : List (String × Option Val) → String → Option Val
  | [], _ => none
  | (k0, o) :: rest, k =>
    if k0 == k then o.orElse (fun _ => lookupField rest k)
    else lookupField rest k

set_option maxHeartbeats 4000000

theorem mapLookup_insert_self (m : List (Val × Val)) (k v : Val) :
    mapLookup (mapInsert m k v) k = some v := by
  induction m with
  | nil => simp [mapInsert, mapLookup]
  | cons p rest ih =>
    by_cases h : p.1 = k
    · simp [mapInsert, mapLookup, h]
    · simp [mapInsert, mapLookup, h, ih]

theorem mapLookup_insert_ne (m : List (Val × Val)) (k v k' : Val) (h : k' ≠ k) :
    mapLookup (mapInsert m k v) k' = mapLookup m k' := by
  induction m with
  | nil => simp [mapInsert, mapLookup, Ne.symm h]
  | cons p rest ih =>
    by_cases hp : p.1 = k <;> by_cases hp' : p.1 = k' <;>
      simp_all [mapInsert, mapLookup]

theorem keysOf_insert (m : List (Val × Val)) (k v : Val) :
    keysOf (mapInsert m k v) =
      if k ∈ keysOf m then keysOf m else keysOf m ++ [k] := by
  induction m with
  | nil => simp [mapInsert, keysOf]
  | cons p rest ih =>
    by_cases h : p.1 = k
    · simp [mapInsert, keysOf, h]
    · simp only [mapInsert, beq_iff_eq, h, if_false]
      simp only [keysOf, List.map_cons] at ih ⊢
      rw [ih]
      by_cases hk : k ∈ rest.map Prod.fst <;>
        simp [hk, Ne.symm h]

theorem visitMapGo_ok (l : List (Val × Val)) (m : List (Val × Val)) :
    visitMapGo (l.map Except.ok) m = .ok (foldInsert m l) := by
  induction l generalizing m with
  | nil => simp [visitMapGo, foldInsert]
  | cons p rest ih => simpa [visitMapGo, foldInsert] using ih (mapInsert m p.1 p.2)

theorem mapLookup_foldInsert (l : List (Val × Val)) (m : List (Val × Val)) (k : Val) :
    mapLookup (foldInsert m l) k =
      match lastValue l k with
      | some v => some v
      | none => mapLookup m k := by
  induction l generalizing m with
  | nil => simp [foldInsert, lastValue]
  | cons p rest ih =>
    have step : foldInsert m (p :: rest) = foldInsert (mapInsert m p.1 p.2) rest := by
      simp [foldInsert]
    rw [step, ih]
    cases hl : lastValue rest k with
    | some v => simp [lastValue, hl]
    | none =>
      by_cases hk : p.1 = k
      · subst hk
        simp [lastValue, hl, mapLookup_insert_self]
      · simp [lastValue, hl, hk, mapLookup_insert_ne m p.1 p.2 k (Ne.symm hk)]

theorem lastValue_isSome (l : List (Val × Val)) (k : Val) :
    (lastValue l k).isSome = true ↔ k ∈ l.map Prod.fst := by
  induction l with
  | nil => simp [lastValue]
  | cons p rest ih =>
    have hstep : lastValue (p :: rest) k =
        match lastValue rest k with
        | some v => some v
        | none => if p.1 == k then some p.2 else none := rfl
    cases hl : lastValue rest k with
    | some v =>
      have hmem : k ∈ rest.map Prod.fst := ih.mp (by simp [hl])
      rw [hstep, hl]
      simp [hmem]
    | none =>
      rw [hstep, hl]
      by_cases hk : p.1 = k
      · simp [hk]
      · have hnm : ¬ k ∈ rest.map Prod.fst := fun hm => by
          have := ih.mpr hm
          simp [hl] at this
        simp [hk, hnm, Ne.symm hk]

theorem keysOf_foldInsert (l : List (Val × Val)) (m : List (Val × Val)) :
    keysOf (foldInsert m l) =
      (l.map Prod.fst).foldl (fun acc k => if k ∈ acc then acc else acc ++ [k]) (keysOf m) := by
  induction l generalizing m with
  | nil => simp [foldInsert]
  | cons p rest ih =>
    have step : foldInsert m (p :: rest) = foldInsert (mapInsert m p.1 p.2) rest := by
      simp [foldInsert]
    rw [step, ih, keysOf_insert]
    simp [List.foldl_cons]


theorem validateProps_nil_none (doc : Document) (visited : List String) :
    ∀ entries, validateProps doc visited [] none entries = [] := by
  intro entries
  induction entries with
  | nil => simp [validateProps]
  | cons e es ih => simp [validateProps, List.find?, ih]

/-- A node whose only keywords are the composition keywords validates
as the concatenation of their verdicts. -/
theorem validate_node_only_comp (doc : Document) (vis : List String) (v : Val)
    (allOf anyOf oneOf : List Schema) (notS : Option Schema) :
    validate doc vis v
        (.node [] none none none none none none none none none none false
          none [] [] none allOf anyOf oneOf notS) =
      (validateBranches doc vis v allOf).flatten ++
      (if anyOf.isEmpty then []
       else
         let results := validateBranches doc vis v anyOf
         if results.any List.isEmpty then [] else results.filterMap List.head?) ++
      (if oneOf.isEmpty then []
       else
         let results := validateBranches doc vis v oneOf
         let passing := (results.filter List.isEmpty).length
         if passing = 1 then []
         else if passing = 0 then [⟨[], .noMatchingBranch⟩]
         else [⟨[], .multipleMatchingBranches⟩]) ++
      (match notS with
       | none => []
       | some nsch =>
         if (validate doc vis v nsch).isEmpty then [⟨[], .disallowedByNot⟩]
         else []) := by
  cases v <;> (rw [validate.eq_def]; simp [validateProps_nil_none, validateBranches]) <;>
    (cases notS <;> simp)

/-- A node whose only keyword is a nonempty type set validates as the
bare type check. -/
theorem validate_typeOnly (doc : Document) (vis : List String) (v : Val)
    (t : SchemaType) (ts : List SchemaType) :
    validate doc vis v (Schema.typeOnly (t :: ts)) =
      if (t :: ts).any (fun x => typeMatches x v) then []
      else [⟨[], .typeMismatch (t :: ts) v.kind⟩] := by
  cases v <;>
    (simp only [Schema.typeOnly]; rw [validate.eq_def];
     simp [validateProps_nil_none, validateBranches, Val.kind])

/-- A `$ref` whose parsed name is already on the visited path halts with
`CyclicSchema` (the cycle guard). -/
theorem validate_ref_cyclic (doc : Document) (visited : List String) (v : Val)
    (ptr kind name : String) (hparse : parsePointer ptr = some (kind, name))
    (hmem : visited.contains name = true) :
    validate doc visited v (.ref ptr) = [⟨[], .cyclicSchema ptr⟩] := by
  rw [validate.eq_1]
  split
  · simp_all
  · rename_i k n heq
    rw [hparse] at heq
    injection heq with heq
    obtain ⟨rfl, rfl⟩ := Prod.mk.injEq .. ▸ And.intro (congrArg Prod.fst heq) (congrArg Prod.snd heq)
    rw [dif_pos hmem]

/-- A fresh `$ref` that resolves steps into the resolved schema with the
name pushed onto the path. -/
theorem validate_ref_step (doc : Document) (visited : List String) (v : Val)
    (ptr kind name : String) (s' : Schema)
    (hparse : parsePointer ptr = some (kind, name))
    (hfresh : visited.contains name = false)
    (hres : resolveSchema (.ref ptr) doc = .ok s') :
    validate doc visited v (.ref ptr) = validate doc (name :: visited) v s' := by
  rw [validate.eq_1]
  split
  · simp_all
  · rename_i k n heq
    rw [hparse] at heq
    injection heq with heq
    obtain ⟨rfl, rfl⟩ := Prod.mk.injEq .. ▸ And.intro (congrArg Prod.fst heq) (congrArg Prod.snd heq)
    rw [dif_neg (by simpa using hfresh)]
    split
    · rename_i e heq2
      rw [hres] at heq2
      exact Except.noConfusion heq2
    · rename_i s'' heq2
      rw [hres] at heq2
      injection heq2 with h
      rw [h]


/-! ## Theorems -/

/-- C6: resolving an Inline Reference Cell returns the inlined value
itself for every document and every component-kind selection — no
document lookup takes place and resolution cannot fail. -/
theorem resolve_inline_identity {α : Type}
    (mapping : Document → String → Option (List (String × α)))
    (v : α) (doc : Document) :
    resolve mapping (ObjectOrReference.object v) doc = Except.ok v :=
  rfl

/-- C2: `Contact` serialization emits exactly the keys of the fields
that are set — the key list is the sub-list of `name`, `url`, `email`
whose fields are `Some`, and each emitted key holds exactly the field's
value. -/
theorem contact_serialization_omits_absent (c : Contact) :
    (Contact.toEntries c).map Prod.fst =
      (if c.name.isSome then ["name"] else []) ++
      (if c.url.isSome then ["url"] else []) ++
      (if c.email.isSome then ["email"] else []) ∧
    lookupKey c.toEntries "name" = c.name.map Val.str ∧
    lookupKey c.toEntries "url" = c.url.map (fun u => Val.str u.val) ∧
    lookupKey c.toEntries "email" = c.email.map Val.str := by
  obtain ⟨n, u, e⟩ := c
  cases n <;> cases u <;> cases e <;>
    exact ⟨rfl, rfl, rfl, rfl⟩

/-- C9: deserializing a `Contact` whose `url` field holds a string runs
the URL parser on it — an invalid URL fails the whole deserialization —
while `name` and `email` accept every string unchecked. -/
theorem contact_url_validated (name email u : String) :
    (isValidUrl u = false →
      Contact.fromVal
          (.obj [("name", .str name), ("url", .str u), ("email", .str email)]) =
        .error "invalid URL") ∧
    (∀ h : isValidUrl u = true,
      Contact.fromVal
          (.obj [("name", .str name), ("url", .str u), ("email", .str email)]) =
        .ok ⟨some name, some ⟨u, h⟩, some email⟩) := by
  constructor
  · intro hbad
    simp [Contact.fromVal, lookupKey, List.find?, parseOptString, parseOptUrl,
      urlParse, hbad, Bind.bind, Except.bind]
  · intro h
    simp [Contact.fromVal, lookupKey, List.find?, parseOptString, parseOptUrl,
      urlParse, h, Bind.bind, Except.bind]

/-- Witness for C9: `"not a url"` is rejected, `"https://example.com"`
is accepted with `name`/`email` arbitrary. -/
theorem contact_url_validated_witness :
    Contact.fromVal
        (.obj [("name", .str "Team"), ("url", .str "not a url"),
               ("email", .str "x")]) =
      .error "invalid URL" ∧
    Contact.fromVal
        (.obj [("name", .str "Team"), ("url", .str "https://example.com"),
               ("email", .str "x")]) =
      .ok ⟨some "Team", some ⟨"https://example.com", rfl⟩, some "x"⟩ :=
  ⟨(contact_url_validated "Team" "x" "not a url").1 rfl,
   (contact_url_validated "Team" "x" "https://example.com").2 rfl⟩

theorem visitMapGo_error (pre : List (Val × Val)) (e : String)
    (rest : List (Except String (Val × Val))) :
    ∀ m, visitMapGo (pre.map Except.ok ++ .error e :: rest) m = .error e := by
  induction pre with
  | nil => intro m; rfl
  | cons p pre ih => intro m; simpa [visitMapGo] using ih (mapInsert m p.1 p.2)

/-- C5: with every underlying entry succeeding, `deserialize_extensions`
returns a mapping holding exactly the input's entries — a key is present
exactly when it occurs in the input and maps to the value of its last
occurrence; an underlying entry failure is propagated as that error. -/
theorem deserializeExtensions_exact_entries :
    (∀ (l r : List (Val × Val)),
        deserializeExtensions (l.map Except.ok) = .ok r →
        ∀ k : Val,
          mapLookup r k = lastValue l k ∧
          ((mapLookup r k).isSome = true ↔ k ∈ l.map Prod.fst)) ∧
    (∀ (pre : List (Val × Val)) (e : String)
        (rest : List (Except String (Val × Val))),
        deserializeExtensions (pre.map Except.ok ++ .error e :: rest) =
          .error e) := by
  constructor
  · intro l r hr k
    have hok : deserializeExtensions (l.map Except.ok) = .ok (foldInsert [] l) :=
      visitMapGo_ok l []
    rw [hr] at hok
    injection hok with hok
    subst hok
    have hlook : mapLookup (foldInsert [] l) k = lastValue l k := by
      rw [mapLookup_foldInsert l [] k]
      cases lastValue l k <;> simp [mapLookup]
    refine ⟨hlook, ?_⟩
    rw [hlook]
    exact lastValue_isSome l k
  · intro pre e rest
    exact visitMapGo_error pre e rest []

/-- Witness for C5: a duplicated key resolves to its last value, and an
entry error is propagated. -/
theorem deserializeExtensions_exact_entries_witness :
    (mapLookup (foldInsert [] [(.str "x-a", .int 1), (.str "x-b", .int 2),
        (.str "x-a", .int 3)]) (.str "x-a") =
      lastValue [(.str "x-a", .int 1), (.str "x-b", .int 2),
        (.str "x-a", .int 3)] (.str "x-a")) ∧
    deserializeExtensions
        ([(Val.str "x-a", Val.int 1)].map Except.ok ++ .error "boom" :: []) =
      .error "boom" :=
  ⟨(deserializeExtensions_exact_entries.1
      [(.str "x-a", .int 1), (.str "x-b", .int 2), (.str "x-a", .int 3)]
      _ rfl (.str "x-a")).1,
   deserializeExtensions_exact_entries.2 [(.str "x-a", .int 1)] "boom" []⟩

/-- C10: the mapping `deserialize_extensions` builds lists its keys in
first-occurrence order of the input. -/
theorem deserializeExtensions_insertion_order :
    ∀ (l r : List (Val × Val)),
      deserializeExtensions (l.map Except.ok) = .ok r →
      keysOf r = firstOccur (l.map Prod.fst) := by
  intro l r hr
  have hok : deserializeExtensions (l.map Except.ok) = .ok (foldInsert [] l) :=
    visitMapGo_ok l []
  rw [hr] at hok
  injection hok with hok
  subst hok
  rw [keysOf_foldInsert]
  rfl

/-- Witness for C10: a duplicated key keeps its first position. -/
theorem deserializeExtensions_insertion_order_witness :
    keysOf (foldInsert [] [(.str "b", .int 1), (.str "a", .int 2),
        (.str "b", .int 3)]) =
      firstOccur ([(Val.str "b", Val.int 1), (.str "a", .int 2),
        (.str "b", .int 3)].map Prod.fst) ∧
    keysOf (foldInsert [] [(.str "b", .int 1), (.str "a", .int 2),
        (.str "b", .int 3)]) = [.str "b", .str "a"] :=
  ⟨deserializeExtensions_insertion_order
      [(.str "b", .int 1), (.str "a", .int 2), (.str "b", .int 3)] _ rfl,
   rfl⟩

/-- C3: `from_reader` hands both YAML and JSON texts to the same parser
(JSON is a subset of YAML's flow syntax); two texts denoting the same
structured value are deserialized to structurally equal Specs. -/
theorem from_reader_json_yaml_equivalence :
    ∀ (t1 t2 : String) (v : Val),
      parseTextVal t1 = some v → parseTextVal t2 = some v →
      from_reader t1 = from_reader t2 := by
  intro t1 t2 v h1 h2
  unfold from_reader
  rw [h1, h2]

set_option maxRecDepth 40000 in
/-- Witness for C3: the block-YAML and pretty-JSON renderings of one
OpenAPI document (with components and a nested schema) parse to the
same value, so `from_reader` accepts both with equal results. -/
theorem from_reader_json_yaml_equivalence_witness :
    from_reader
        "openapi: \"3\"\npaths: \x7b\x7d\ninfo:\n  title: Test API\n  version: \"0.1\"\ncomponents:\n  schemas:\n    assets:\n      title: Assets\n      type: array\n      items: \x7b type: integer \x7d" =
      from_reader
        "\x7b \"openapi\": \"3\", \"paths\": \x7b\x7d, \"info\": \x7b \"title\": \"Test API\", \"version\": \"0.1\" \x7d, \"components\": \x7b \"schemas\": \x7b \"assets\": \x7b \"title\": \"Assets\", \"type\": \"array\", \"items\": \x7b \"type\": \"integer\" \x7d \x7d \x7d \x7d \x7d" :=
  from_reader_json_yaml_equivalence _ _
    (.obj [("openapi", .str "3"), ("paths", .obj []),
      ("info", .obj [("title", .str "Test API"), ("version", .str "0.1")]),
      ("components", .obj [("schemas", .obj [("assets",
        .obj [("title", .str "Assets"), ("type", .str "array"),
          ("items", .obj [("type", .str "integer")])])])])])
    rfl rfl

/-- C4: `from_reader` returns a Document only when both the structural
parse and the field mapping fully succeed, and otherwise returns the
stage's error with no partial Document; `from_path` reports an I/O
failure as an error and otherwise behaves as `from_reader` on the file's
contents. -/
theorem from_reader_error_propagation :
    (∀ t, parseTextVal t = none → from_reader t = .error "syntax error") ∧
    (∀ t v e, parseTextVal t = some v → Document.fromVal v = .error e →
        from_reader t = .error e) ∧
    (∀ t d, from_reader t = .ok d →
        ∃ v, parseTextVal t = some v ∧ Document.fromVal v = .ok d) ∧
    from_path none = .error "could not open file" ∧
    (∀ t, from_path (some t) = from_reader t) := by
  refine ⟨?_, ?_, ?_, rfl, fun t => rfl⟩
  · intro t h
    simp [from_reader, h]
  · intro t v e h1 h2
    simp [from_reader, h1, h2]
  · intro t d h
    unfold from_reader at h
    match hp : parseTextVal t with
    | none => rw [hp] at h; exact Except.noConfusion h
    | some v => rw [hp] at h; exact ⟨v, rfl, h⟩

set_option maxRecDepth 40000 in
/-- Witness for C4: malformed syntax fails, a missing required field
fails with that error, and a well-formed document parses fully. -/
theorem from_reader_error_propagation_witness :
    from_reader "\x7b" = .error "syntax error" ∧
    from_reader "paths: \x7b\x7d" = .error "missing field openapi" ∧
    (∃ v, parseTextVal "openapi: \"3\"\ninfo:\n  title: T\n  version: \"1\"" = some v ∧
      Document.fromVal v = .ok ⟨"3", ⟨"T", "1", none⟩, none, none⟩) :=
  ⟨from_reader_error_propagation.1 "\x7b" rfl,
   from_reader_error_propagation.2.1 "paths: \x7b\x7d" _ _ rfl rfl,
   from_reader_error_propagation.2.2.1 _ _ rfl⟩


theorem isEmpty_false_of_ne {α : Type} (l : List α) (hl : l ≠ []) :
    l.isEmpty = false := by
  cases l with
  | nil => exact absurd rfl hl
  | cons a as => rfl

/-- C7: validating a value against `oneOf: [A, B]` reports
`MultipleMatchingBranches` when both branches accept it,
`NoMatchingBranch` when neither does, and passes exactly when exactly
one branch passes. -/
theorem oneOf_branch_semantics (doc : Document) (v : Val) (A B : Schema) :
    (validate doc [] v A = [] → validate doc [] v B = [] →
      validate doc [] v (Schema.oneOfOnly [A, B]) =
        [⟨[], .multipleMatchingBranches⟩]) ∧
    (validate doc [] v A ≠ [] → validate doc [] v B ≠ [] →
      validate doc [] v (Schema.oneOfOnly [A, B]) =
        [⟨[], .noMatchingBranch⟩]) ∧
    (validate doc [] v (Schema.oneOfOnly [A, B]) = [] ↔
      (validate doc [] v A = [] ↔ validate doc [] v B ≠ [])) := by
  have hres : validate doc [] v (Schema.oneOfOnly [A, B]) =
      (let passing := ([validate doc [] v A,
          validate doc [] v B].filter List.isEmpty).length
       if passing = 1 then []
       else if passing = 0 then [⟨[], .noMatchingBranch⟩]
       else [⟨[], .multipleMatchingBranches⟩]) := by
    simp only [Schema.oneOfOnly]
    rw [validate_node_only_comp]
    simp [validateBranches]
  rcases Classical.em (validate doc [] v A = []) with hA | hA <;>
    rcases Classical.em (validate doc [] v B = []) with hB | hB
  · have hval : validate doc [] v (Schema.oneOfOnly [A, B]) =
        [⟨[], .multipleMatchingBranches⟩] := by
      rw [hres]; simp [hA, hB]
    exact ⟨fun _ _ => hval, fun h _ => absurd hA h, by rw [hval]; simp [hA, hB]⟩
  · have hBf := isEmpty_false_of_ne _ hB
    have hval : validate doc [] v (Schema.oneOfOnly [A, B]) = [] := by
      rw [hres]; simp [hA, hBf]
    exact ⟨fun _ h => absurd h hB, fun h _ => absurd hA h,
      by rw [hval]; simp [hA, hB]⟩
  · have hAf := isEmpty_false_of_ne _ hA
    have hval : validate doc [] v (Schema.oneOfOnly [A, B]) = [] := by
      rw [hres]; simp [hAf, hB]
    exact ⟨fun h _ => absurd h hA, fun _ h => absurd hB h,
      by rw [hval]; simp [hA, hB]⟩
  · have hAf := isEmpty_false_of_ne _ hA
    have hBf := isEmpty_false_of_ne _ hB
    have hval : validate doc [] v (Schema.oneOfOnly [A, B]) =
        [⟨[], .noMatchingBranch⟩] := by
      rw [hres]; simp [hAf, hBf]
    exact ⟨fun h _ => absurd h hA, fun _ _ => hval, by rw [hval]; simp [hA, hB]⟩

/-- Witness for C7: with two unconstrained branches a null value matches
both; with `string`/`array` branches it matches neither; with
`null`/`string` branches exactly one matches and the keyword passes. -/
theorem oneOf_branch_semantics_witness :
    validate plainSampleDoc [] .null
        (Schema.oneOfOnly [Schema.empty, Schema.empty]) =
      [⟨[], .multipleMatchingBranches⟩] ∧
    validate plainSampleDoc [] .null
        (Schema.oneOfOnly [Schema.typeOnly [.string], Schema.typeOnly [.array]]) =
      [⟨[], .noMatchingBranch⟩] ∧
    validate plainSampleDoc [] .null
        (Schema.oneOfOnly [Schema.typeOnly [.null], Schema.typeOnly [.string]]) =
      [] := by
  have hempty : validate plainSampleDoc [] .null Schema.empty = [] := by
    simp only [Schema.empty]
    rw [validate_node_only_comp]
    simp [validateBranches]
  have hstring : validate plainSampleDoc [] .null (Schema.typeOnly [.string]) =
      [⟨[], .typeMismatch [.string] .null⟩] := by
    rw [validate_typeOnly]
    simp [typeMatches, Val.kind]
  have harray : validate plainSampleDoc [] .null (Schema.typeOnly [.array]) =
      [⟨[], .typeMismatch [.array] .null⟩] := by
    rw [validate_typeOnly]
    simp [typeMatches, Val.kind]
  have hnull : validate plainSampleDoc [] .null (Schema.typeOnly [.null]) = [] := by
    rw [validate_typeOnly]
    simp [typeMatches]
  refine ⟨(oneOf_branch_semantics plainSampleDoc .null _ _).1 hempty hempty,
    (oneOf_branch_semantics plainSampleDoc .null _ _).2.1
      (by rw [hstring]; simp) (by rw [harray]; simp),
    (oneOf_branch_semantics plainSampleDoc .null _ _).2.2.mpr ?_⟩
  rw [hnull, hstring]
  simp

/-- C8: a reference pointer whose component name is already on the
current recursive path halts that branch with `CyclicSchema` (for every
document, value and path), and on a document whose `$ref`s form a loop
the validator still terminates with that violation while sibling
branches are evaluated as usual. -/
theorem validate_cycle_guard_and_siblings :
    (∀ (doc : Document) (visited : List String) (v : Val)
        (ptr kind name : String),
        parsePointer ptr = some (kind, name) → visited.contains name = true →
        validate doc visited v (.ref ptr) = [⟨[], .cyclicSchema ptr⟩]) ∧
    (∀ v : Val,
        validate cyclicSampleDoc [] v
            (Schema.allOfOnly [.ref "#/components/schemas/a",
              Schema.typeOnly [.string]]) =
          ⟨[], .cyclicSchema "#/components/schemas/a"⟩ ::
            validate cyclicSampleDoc [] v (Schema.typeOnly [.string])) := by
  refine ⟨fun doc visited v ptr kind name hp hm =>
    validate_ref_cyclic doc visited v ptr kind name hp hm, ?_⟩
  intro v
  have h1 : validate cyclicSampleDoc [] v (.ref "#/components/schemas/a") =
      validate cyclicSampleDoc ["a"] v (.ref "#/components/schemas/b") :=
    validate_ref_step _ _ _ _ "schemas" "a" _ rfl rfl rfl
  have h2 : validate cyclicSampleDoc ["a"] v (.ref "#/components/schemas/b") =
      validate cyclicSampleDoc ["b", "a"] v (.ref "#/components/schemas/a") :=
    validate_ref_step _ _ _ _ "schemas" "b" _ rfl rfl rfl
  have h3 : validate cyclicSampleDoc ["b", "a"] v
      (.ref "#/components/schemas/a") =
      [⟨[], .cyclicSchema "#/components/schemas/a"⟩] :=
    validate_ref_cyclic _ _ _ _ "schemas" "a" rfl rfl
  simp only [Schema.allOfOnly]
  rw [validate_node_only_comp]
  simp [validateBranches, h1, h2, h3]

/-- Witness for C8: the guard fires on a concrete visited path, and on
the looping document the whole validation returns the cyclic violation
next to the sibling branch's type mismatch. -/
theorem validate_cycle_guard_witness :
    validate cyclicSampleDoc ["a"] .null (.ref "#/components/schemas/a") =
      [⟨[], .cyclicSchema "#/components/schemas/a"⟩] ∧
    validate cyclicSampleDoc [] (.int 5)
        (Schema.allOfOnly [.ref "#/components/schemas/a",
          Schema.typeOnly [.string]]) =
      [⟨[], .cyclicSchema "#/components/schemas/a"⟩,
       ⟨[], .typeMismatch [.string] .integer⟩] :=
  ⟨validate_cycle_guard_and_siblings.1 cyclicSampleDoc ["a"] .null
      "#/components/schemas/a" "schemas" "a" rfl rfl,
   (validate_cycle_guard_and_siblings.2 (.int 5)).trans
     (by rw [validate_typeOnly]; simp [typeMatches, Val.kind])⟩


theorem lookupKey_mkFields (fields : List (String × Option Val)) (k : String) :
    lookupKey (mkFields fields) k = lookupField fields k := by
  induction fields with
  | nil => rfl
  | cons f rest ih =>
    obtain ⟨k0, o⟩ := f
    cases o with
    | none =>
      by_cases h : k0 == k <;> simp [mkFields, lookupField, h, ih] <;>
        simpa [mkFields] using ih
    | some v =>
      by_cases h : k0 == k <;>
        simp [mkFields, lookupField, lookupKey, List.find?, h] <;>
        simpa [mkFields, lookupKey] using ih

theorem orElse_none_right {α : Type} (o : Option α) :
    (o.orElse fun _ => none) = o := by
  cases o <;> rfl

theorem ofName_toName (t : SchemaType) :
    SchemaType.ofName t.toName = some t := by
  cases t <;> rfl

theorem typeNames_roundtrip (ts : List SchemaType) :
    typeNamesFromVal (ts.map (fun t => .str t.toName)) = .ok ts := by
  induction ts with
  | nil => rfl
  | cons t ts ih => simp [typeNamesFromVal, ofName_toName, ih, Except.map]

theorem types_roundtrip (types : List SchemaType) :
    typesFromVal (typesToVal types) = .ok types := by
  match types with
  | [] => rfl
  | [t] => simp [typesToVal, typesFromVal, ofName_toName]
  | t1 :: t2 :: ts =>
    simpa [typesToVal, typesFromVal] using typeNames_roundtrip (t1 :: t2 :: ts)

theorem optInt_roundtrip (o : Option Int) :
    optIntFromVal (o.map (fun n => .int n)) = .ok o := by
  cases o <;> rfl

theorem optNat_roundtrip (o : Option Nat) :
    optNatFromVal (o.map (fun n => Val.int (Nat.cast n))) = .ok o := by
  cases o with
  | none => rfl
  | some n =>
    have h : ¬((n : Int) < 0) := not_lt.mpr (Int.natCast_nonneg n)
    simp [optNatFromVal, h]

theorem boolFlag_roundtrip (u : Bool) :
    boolFlagFromVal (if u then some (.bool true) else none) = .ok u := by
  cases u <;> rfl

theorem enum_roundtrip (o : Option (List Val)) :
    enumFromVal (o.map (fun vs => .arr vs)) = .ok o := by
  cases o <;> rfl

theorem strList_roundtrip (l : List String) :
    strListFromVal (l.map Val.str) = .ok l := by
  induction l with
  | nil => rfl
  | cons s l ih => simp [strListFromVal, ih, Except.map]

theorem required_roundtrip (rs : List String) :
    requiredFromVal
        (if rs.isEmpty then none
         else some (.arr (rs.map Val.str))) = .ok rs := by
  match rs with
  | [] => rfl
  | r :: rest => simpa [requiredFromVal] using strList_roundtrip (r :: rest)


theorem schemaToVal_isObj (s : Schema) : ∃ entries, schemaToVal s = .obj entries := by
  cases s <;> (rw [schemaToVal.eq_def]; exact ⟨_, rfl⟩)

mutual

theorem schemaToVal_roundtrip : (s : Schema) →
    schemaFromVal (schemaToVal s) = .ok s
  | .ref ptr => by
    simp [schemaToVal, schemaFromVal, lookupKey, List.find?]
  | .node types enumVals constVal minimum maximum exclusiveMinimum exclusiveMaximum
      minLength maxLength minItems maxItems uniqueItems items properties required
      additionalProperties allOf anyOf oneOf notSchema => by
    have hitems := optSubschema_roundtrip items
    have hnot := optSubschema_roundtrip notSchema
    have hprops := propsField_roundtrip properties
    have haddp := addProps_roundtrip additionalProperties
    have hallOf := listField_roundtrip allOf
    have hanyOf := listField_roundtrip anyOf
    have honeOf := listField_roundtrip oneOf
    simp only [schemaToVal, schemaFromVal]
    simp [lookupKey_mkFields, lookupField, orElse_none_right, types_roundtrip,
      enum_roundtrip, optInt_roundtrip, boolFlag_roundtrip,
      required_roundtrip, hitems, hnot, hprops, haddp, hallOf, hanyOf, honeOf,
      Bind.bind, Except.bind]
    rw [optNat_roundtrip minLength, optNat_roundtrip maxLength,
      optNat_roundtrip minItems, optNat_roundtrip maxItems]
    rcases required with _ | ⟨r, rs⟩
    · simp [requiredFromVal]
    · have hreq := strList_roundtrip (r :: rs)
      simp only [List.map_cons] at hreq
      simp [requiredFromVal, hreq]
termination_by s => sizeOf s
decreasing_by all_goals simp <;> omega

theorem optSubschema_roundtrip : (o : Option Schema) →
    optSubschemaFromVal (optSchemaToVal o) = .ok o
  | none => by simp [optSchemaToVal, optSubschemaFromVal]
  | some s => by
    have h := schemaToVal_roundtrip s
    simp [optSchemaToVal, optSubschemaFromVal, h, Except.map]
termination_by o => sizeOf o
decreasing_by all_goals simp <;> omega

theorem addProps_roundtrip : (ap : Option (Bool ⊕ Schema)) →
    addPropsFromVal (addPropsToVal ap) = .ok ap
  | none => by simp [addPropsToVal, addPropsFromVal]
  | some (.inl b) => by simp [addPropsToVal, addPropsFromVal]
  | some (.inr s) => by
    have h := schemaToVal_roundtrip s
    obtain ⟨E, hE⟩ := schemaToVal_isObj s
    rw [hE] at h
    simp [addPropsToVal, addPropsFromVal, hE, h, Except.map]
termination_by ap => sizeOf ap
decreasing_by all_goals simp <;> omega

theorem propsField_roundtrip : (ps : List (String × Schema)) →
    propsFieldFromVal
      (if ps.isEmpty then none else some (.obj (schemaPropsToVal ps))) = .ok ps
  | [] => by simp [propsFieldFromVal]
  | p :: rest => by
    have h := schemaPropsToVal_roundtrip (p :: rest)
    simp [propsFieldFromVal, h]
termination_by ps => sizeOf ps + 1
decreasing_by all_goals simp <;> omega

theorem schemaPropsToVal_roundtrip : (ps : List (String × Schema)) →
    schemaPropsFromVal (schemaPropsToVal ps) = .ok ps
  | [] => by simp [schemaPropsToVal, schemaPropsFromVal]
  | (k, s) :: rest => by
    have h1 := schemaToVal_roundtrip s
    have h2 := schemaPropsToVal_roundtrip rest
    simp [schemaPropsToVal, schemaPropsFromVal, h1, h2, Bind.bind, Except.bind]
termination_by ps => sizeOf ps
decreasing_by all_goals simp <;> omega

theorem listField_roundtrip : (l : List Schema) →
    schemaListFieldFromVal
      (if l.isEmpty then none else some (.arr (schemaListToVal l))) = .ok l
  | [] => by simp [schemaListFieldFromVal]
  | s :: rest => by
    have h := schemaListToVal_roundtrip (s :: rest)
    simp [schemaListFieldFromVal, h]
termination_by l => sizeOf l + 1
decreasing_by all_goals simp <;> omega

theorem schemaListToVal_roundtrip : (l : List Schema) →
    schemaListFromVal (schemaListToVal l) = .ok l
  | [] => by simp [schemaListToVal, schemaListFromVal]
  | s :: rest => by
    have h1 := schemaToVal_roundtrip s
    have h2 := schemaListToVal_roundtrip rest
    simp [schemaListToVal, schemaListFromVal, h1, h2, Bind.bind, Except.bind]
termination_by l => sizeOf l
decreasing_by all_goals simp <;> omega

end

theorem contact_roundtrip (c : Contact) :
    Contact.fromVal (Contact.toVal c) = .ok c := by
  obtain ⟨n, u, e⟩ := c
  cases n <;> cases e <;> rcases u with _ | ⟨s, hu⟩ <;>
    simp [Contact.toVal, Contact.toEntries, mkFields, Contact.fromVal, lookupKey,
      List.find?, parseOptString, parseOptUrl, urlParse, Bind.bind, Except.bind,
      *]

theorem info_roundtrip (i : Info) : Info.fromVal (Info.toVal i) = .ok i := by
  obtain ⟨t, v, c⟩ := i
  cases c with
  | none =>
    simp [Info.toVal, mkFields, Info.fromVal, lookupKey, List.find?, Bind.bind,
      Except.bind]
  | some c =>
    have hc := contact_roundtrip c
    simp only [Contact.toVal] at hc
    simp [Info.toVal, mkFields, Info.fromVal, lookupKey, List.find?, Contact.toVal,
      hc, Bind.bind, Except.bind, Except.map]

theorem pathItem_roundtrip (p : PathItem) :
    PathItem.fromVal (PathItem.toVal p) = .ok p := by
  obtain ⟨su, de⟩ := p
  cases su <;> cases de <;>
    simp [PathItem.toVal, mkFields, PathItem.fromVal, lookupKey, List.find?,
      parseOptString, Bind.bind, Except.bind]

theorem pathEntries_roundtrip (ps : List (String × PathItem)) :
    pathEntriesFromVal (ps.map (fun p => (p.1, p.2.toVal))) = .ok ps := by
  induction ps with
  | nil => rfl
  | cons p rest ih =>
    obtain ⟨k, item⟩ := p
    simp [pathEntriesFromVal, pathItem_roundtrip, ih, Bind.bind, Except.bind]

theorem paths_roundtrip (ps : List (String × PathItem)) :
    pathsFromVal (pathsToVal ps) = .ok ps := by
  simp [pathsToVal, pathsFromVal, pathEntries_roundtrip]

theorem components_roundtrip (c : Components) :
    Components.fromVal (Components.toVal c) = .ok c := by
  obtain ⟨schemas⟩ := c
  cases schemas with
  | nil =>
    simp [Components.toVal, mkFields, Components.fromVal, lookupKey, List.find?,
      Bind.bind, Except.bind]
  | cons p rest =>
    have h := schemaPropsToVal_roundtrip (p :: rest)
    simp [Components.toVal, mkFields, Components.fromVal, lookupKey, List.find?,
      h, Bind.bind, Except.bind]

theorem document_roundtrip (d : Document) :
    Document.fromVal (Document.toVal d) = .ok d := by
  obtain ⟨o, i, p, comps⟩ := d
  have hi := info_roundtrip i
  cases p with
  | none =>
    cases comps with
    | none =>
      simp [Document.toVal, mkFields, Document.fromVal, lookupKey, List.find?,
        hi, Bind.bind, Except.bind]
    | some c =>
      obtain ⟨schemas⟩ := c
      cases schemas with
      | nil =>
        simp [Document.toVal, mkFields, Document.fromVal, lookupKey, List.find?,
          hi, Components.toVal, Components.fromVal, Bind.bind, Except.bind,
          Except.map]
      | cons s rest =>
        have h := schemaPropsToVal_roundtrip (s :: rest)
        simp [Document.toVal, mkFields, Document.fromVal, lookupKey, List.find?,
          hi, Components.toVal, Components.fromVal, h, Bind.bind, Except.bind,
          Except.map]
  | some ps =>
    have hp := pathEntries_roundtrip ps
    cases comps with
    | none =>
      simp [Document.toVal, mkFields, Document.fromVal, lookupKey, List.find?,
        hi, pathsToVal, pathsFromVal, hp, Bind.bind, Except.bind, Except.map]
    | some c =>
      obtain ⟨schemas⟩ := c
      cases schemas with
      | nil =>
        simp [Document.toVal, mkFields, Document.fromVal, lookupKey, List.find?,
          hi, pathsToVal, pathsFromVal, hp, Components.toVal, Components.fromVal,
          Bind.bind, Except.bind, Except.map]
      | cons s rest =>
        have h := schemaPropsToVal_roundtrip (s :: rest)
        simp [Document.toVal, mkFields, Document.fromVal, lookupKey, List.find?,
          hi, pathsToVal, pathsFromVal, hp, Components.toVal, Components.fromVal,
          h, Bind.bind, Except.bind, Except.map]

/-- C1: parsing the serialization of a Document yields it back: the
value-level serialization shared by `to_yaml` and `to_json` roundtrips
for every Document built from the supported fields, and `from_reader`
applied to the printed `to_json` text returns the Document whenever the
text parser returns the serialized value. -/
theorem document_serialization_round_trip :
    (∀ d : Document, Document.fromVal (toYamlVal d) = .ok d) ∧
    (∀ d : Document, Document.fromVal (toJsonVal d) = .ok d) ∧
    (∀ d : Document, parseTextVal (toJsonText d) = some (Document.toVal d) →
      from_reader (toJsonText d) = .ok d) := by
  refine ⟨fun d => document_roundtrip d, fun d => document_roundtrip d,
    fun d h => ?_⟩
  unfold from_reader
  rw [h]
  exact document_roundtrip d

set_option maxRecDepth 100000 in
/-- Witness for C1: a Document with info, contact and paths survives the
full print-then-parse round trip. -/
theorem document_serialization_round_trip_witness :
    from_reader (toJsonText
        ⟨"3.1.0",
         ⟨"Test API", "0.1",
          some ⟨some "Alice", some ⟨"https://example.com/x", rfl⟩,
            some "a@b.c"⟩⟩,
         some [("/pets", ⟨some "list pets", none⟩)], none⟩) =
      .ok ⟨"3.1.0",
        ⟨"Test API", "0.1",
         some ⟨some "Alice", some ⟨"https://example.com/x", rfl⟩,
           some "a@b.c"⟩⟩,
        some [("/pets", ⟨some "list pets", none⟩)], none⟩ :=
  document_serialization_round_trip.2.2 _ rfl


end Oas3
